import Mathlib

/-!
Shallow embedding of the literal-token recognizer in src/parse/literal.c.

Source text is modelled as a `List Char`; reading past the end of the list
yields the C string terminator NUL, matching NUL-terminated buffers.
`unsigned`/`uint64_t` arithmetic is modelled on `Nat` with explicit
`% 2 ^ 32` / `% 2 ^ 64` where C truncation or wraparound can occur.
The diagnostics collaborator (sparse_error / sparse_warning) is modelled by
returning the list of emitted diagnostics; the contiguity oracle
`sparse_sequential` and the pre-expansion lookup `sparse_parent_pointer`
are modelled by an environment of oracle functions, since the "src"
subsystem is outside this repository.
-/

/-- The NUL terminator character of C strings. -/
def NUL : Char := Char.ofNat 0

/-- The single-quote character, written via its code point. -/
def squote : Char := Char.ofNat 39

/-- The double-quote character, written via its code point. -/
def dquote : Char := Char.ofNat 34

/-- The backslash character, written via its code point. -/
def backslash : Char := Char.ofNat 92

/-- Read `ptr[i]` from a NUL-terminated C buffer: past the end of the
modelled list the terminator is returned. -/
def getc (s : List Char) (i : Nat) : Char := s.getD i NUL

/-- C `toupper` restricted to ASCII, as used throughout literal.c. -/
def cToUpper (c : Char) : Char :=
  if 'a' ≤ c ∧ c ≤ 'z' then Char.ofNat (c.toNat - 32) else c

/-- C `isalnum` in the C locale (ASCII digits and letters). -/
def isAlnum (c : Char) : Bool :=
  decide (('0' ≤ c ∧ c ≤ '9') ∨ ('A' ≤ c ∧ c ≤ 'Z') ∨ ('a' ≤ c ∧ c ≤ 'z'))

/-- C `isdigit` in the C locale. -/
def isdigitC (c : Char) : Bool := decide ('0' ≤ c ∧ c ≤ '9')

/-- The digit value computed inside is_base_digit: `c - '0'` for digits,
otherwise `10 + (toupper(c) - 'A')`. -/
def digitVal (c : Char) : Nat :=
  if '0' ≤ c ∧ c ≤ '9' then c.toNat - '0'.toNat
  else 10 + ((cToUpper c).toNat - 'A'.toNat)

/-- is_base_digit from literal.c: alphanumeric with digit value below the
radix. -/
def is_base_digit (c : Char) (base : Nat) : Bool :=
  isAlnum c && decide (digitVal c < base)

/-- Diagnostics emitted through sparse_error / sparse_warning, one
constructor per distinct message in literal.c. -/
inductive Diag where
  | errValidDigit : Diag
  | warnOverflow64 : Diag
  | errInvalidChar : Diag
  | warnWhitespace : Diag
  | errUnterminated : Diag
  | errEndOfLine : Diag
  | warnUnknownEscape : Diag
  | warnWhitespaceNum : Diag
  | warnKindAmbiguous : Diag
deriving DecidableEq, Repr

/-- Oracle environment for the external "src" collaborator:
`seq off len` models `sparse_sequential(src, ptr + off, len)` and
`parent off` models `sparse_parent_pointer(src, ptr + off)`, both relative
to the buffer a recognizer was invoked on. -/
structure Env where
  seq : Nat → Nat → Bool
  parent : Nat → Option (List Char)

/-- Re-base the oracle environment at offset `n`, for a sub-recognizer
invoked on `&ptr[n]`. -/
def Env.shift (e : Env) (n : Nat) : Env :=
  ⟨fun off len => e.seq (n + off) len, fun off => e.parent (n + off)⟩

/-- Length of the leading run of radix digits, the `i` advance of the
digit loop in parse_literal__base. -/
def scanDigits (base : Nat) : List Char → Nat
  | [] => 0
  | c :: rest => if is_base_digit c base then scanDigits base rest + 1 else 0

/-- The value accumulation of the digit loop in parse_literal__base:
`nv = v * 10 + d` in uint64 arithmetic (the multiplier is the literal 10
from the source, regardless of the radix), with the reconstruction check
`nv / base == v && nv % base == d`; a failed check aborts the whole scan
(`none`). Stops at the first non-digit like the C loop condition. -/
def accumDigits (base v : Nat) : List Char → Option Nat
  | [] => some v
  | c :: rest =>
    if is_base_digit c base then
      let d := digitVal c
      let nv := (v * 10 + d) % 2 ^ 64
      if nv / base = v ∧ nv % base = d then accumDigits base nv rest
      else none
    else some v

/-- parse_literal__base from literal.c. `wantValue` models whether the
`value` out-parameter is non-NULL. Returns `none` for a 0 (failed) return,
otherwise the consumed length and the accumulated value, plus emitted
diagnostics. -/
def parse_literal__base (env : Env) (ptr : List Char) (base : Nat)
    (quoted wantValue : Bool) : Option (Nat × Nat) × List Diag :=
  if quoted then
    let q := getc ptr 0
    if q ≠ dquote ∧ q ≠ squote then (none, [])
    else if is_base_digit (getc ptr 1) base then
      let n := scanDigits base (ptr.drop 1)
      match (if wantValue then accumDigits base 0 (ptr.drop 1) else some 0) with
      | none => (none, [Diag.warnOverflow64])
      | some v =>
        if getc ptr (1 + n) = q then (some (n + 2, v), [])
        else (none, [Diag.errInvalidChar])
    else (none, [Diag.errValidDigit])
  else
    if is_base_digit (getc ptr 0) base then
      let n := scanDigits base ptr
      match (if wantValue then accumDigits base 0 ptr else some 0) with
      | none => (none, [Diag.warnOverflow64])
      | some v =>
        (some (n, v), if env.seq 0 n then [] else [Diag.warnWhitespace])
    else (none, [])

/-- parse_unsigned from literal.c: radix 10, unquoted, with accumulation;
additionally fails when the 64-bit value does not round-trip through the
32-bit C `unsigned` out-parameter. -/
def parse_unsigned (env : Env) (ptr : List Char) :
    Option (Nat × Nat) × List Diag :=
  match parse_literal__base env ptr 10 false true with
  | (none, ds) => (none, ds)
  | (some (len, u), ds) =>
    if u % 2 ^ 32 = u then (some (len, u), ds) else (none, ds)

/-- The tag of a parse_literal_t result. -/
inductive LitType where
  | binary | octal | hex | hollerith | character | logical | number | complex
deriving DecidableEq, Repr

/-- parse_literal_t, flattened: the union members of the C struct become
record fields (exactly one of which is meaningful for a given `type`).
Borrowed str_ref slices are modelled as the referenced character list. -/
structure ParseLiteral where
  type : LitType
  number : List Char
  kind : Nat
  string : List Char
  logical : Bool
  left_number : List Char
  right_number : List Char
deriving DecidableEq, Repr

/-- The local `parse_literal_t l` of the dispatcher: only `kind` is
initialised (to 0); the remaining fields model indeterminate memory with
canonical defaults. -/
def litUndef : ParseLiteral :=
  { type := LitType.number, number := [], kind := 0, string := [],
    logical := false, left_number := [], right_number := [] }

/-- parse_literal__binary from literal.c. On success the stored str_ref
starts at `&ptr[1]` (the opening quote) with the full length returned by
parse_literal__base. -/
def parse_literal__binary (env : Env) (ptr : List Char) (lit : ParseLiteral) :
    Nat × ParseLiteral × List Diag :=
  if cToUpper (getc ptr 0) ≠ 'B' then (0, lit, [])
  else
    let r := parse_literal__base (env.shift 1) (ptr.drop 1) 2 true false
    match r.1 with
    | none => (0, lit, r.2)
    | some (len, _) =>
      (len + 1,
        { lit with type := LitType.binary, number := (ptr.drop 1).take len },
        r.2)

/-- parse_literal__octal from literal.c. -/
def parse_literal__octal (env : Env) (ptr : List Char) (lit : ParseLiteral) :
    Nat × ParseLiteral × List Diag :=
  if cToUpper (getc ptr 0) ≠ 'O' then (0, lit, [])
  else
    let r := parse_literal__base (env.shift 1) (ptr.drop 1) 8 true false
    match r.1 with
    | none => (0, lit, r.2)
    | some (len, _) =>
      (len + 1,
        { lit with type := LitType.octal, number := (ptr.drop 1).take len },
        r.2)

/-- parse_literal__hex from literal.c; accepts prefix X or Z. -/
def parse_literal__hex (env : Env) (ptr : List Char) (lit : ParseLiteral) :
    Nat × ParseLiteral × List Diag :=
  if cToUpper (getc ptr 0) ≠ 'X' ∧ cToUpper (getc ptr 0) ≠ 'Z' then (0, lit, [])
  else
    let r := parse_literal__base (env.shift 1) (ptr.drop 1) 16 true false
    match r.1 with
    | none => (0, lit, r.2)
    | some (len, _) =>
      (len + 1,
        { lit with type := LitType.hex, number := (ptr.drop 1).take len },
        r.2)

/-- The copy loop of parse_hollerith: walks parent text from index `j`,
stopping at a line terminator, NUL, or after the fuel (remaining requested
characters) runs out; advances the cursor index `i` whenever cursor and
parent characters agree. Returns the collected characters and the final
cursor index. -/
def hollCopy (ptr pptr : List Char) : Nat → Nat → Nat → List Char × Nat
  | i, _, 0 => ([], i)
  | i, j, n + 1 =>
    let c := getc pptr j
    if c = '\r' ∨ c = '\n' ∨ c = NUL then ([], i)
    else
      let i2 := if getc ptr i = c then i + 1 else i
      let r := hollCopy ptr pptr i2 (j + 1) n
      (c :: r.1, r.2)

/-- parse_hollerith from literal.c. The owned output buffer is the copied
parent characters space-padded to the requested count. String-buffer
allocation (string_create) is modelled as always succeeding, per its
external contract. -/
def parse_hollerith (env : Env) (ptr : List Char) :
    Option (Nat × List Char) × List Diag :=
  let r := parse_unsigned env ptr
  match r.1 with
  | none => (none, r.2)
  | some (i0, holl_len) =>
    if cToUpper (getc ptr i0) ≠ 'H' then (none, r.2)
    else
      match env.parent i0 with
      | none => (none, r.2)
      | some pptr =>
        let cp := hollCopy ptr pptr (i0 + 1) 1 holl_len
        (some (cp.2, cp.1 ++ List.replicate (holl_len - cp.1.length) ' '), r.2)

/-- parse_literal__hollerith from literal.c. -/
def parse_literal__hollerith (env : Env) (ptr : List Char)
    (lit : ParseLiteral) : Nat × ParseLiteral × List Diag :=
  let r := parse_hollerith env ptr
  match r.1 with
  | none => (0, lit, r.2)
  | some (len, s) =>
    (len, { lit with type := LitType.hollerith, string := s }, r.2)

/-- The cursor-side terminating-quote scan of parse_character: counts the
characters examined before an unescaped matching quote or NUL, starting
(in the caller) two characters past the opening quote. -/
def charScanCursor (q : Char) : Bool → List Char → Nat
  | _, [] => 0
  | esc, c :: rest =>
    if c = NUL then 0
    else if c = q ∧ ¬ esc then 0
    else charScanCursor q (!esc && c = backslash) rest + 1

/-- Result of the parent-side length scan (pass 1) of parse_character. -/
inductive LenScan where
  | eol : LenScan
  | offEnd : LenScan
  | ok : Nat → Nat → LenScan
deriving DecidableEq, Repr

/-- Pass 1 of parse_character on parent text: counts the decoded length
and the number of source characters before the unescaped closing quote.
An unescaped line terminator gives `eol` (fatal error in the source). The
C loop has no end-of-buffer check and would read past the parent buffer
when no closing quote exists; running off the modelled list is `offEnd`
and treated as a failed match. -/
def charLenScan (q : Char) : Bool → List Char → LenScan
  | _, [] => LenScan.offEnd
  | esc, c :: rest =>
    if c = q ∧ ¬ esc then LenScan.ok 0 0
    else if c = '\r' ∨ c = '\n' then LenScan.eol
    else if c = backslash ∧ ¬ esc then
      match charLenScan q true rest with
      | LenScan.ok l j => LenScan.ok l (j + 1)
      | r => r
    else
      match charLenScan q false rest with
      | LenScan.ok l j => LenScan.ok (l + 1) (j + 1)
      | r => r

/-- The escape translation of pass 2 of parse_character, with the warning
for unrecognized escapes (character passed through unchanged). -/
def escChar (c : Char) : Char × List Diag :=
  if c = 'n' then ('\n', [])
  else if c = 'r' then ('\r', [])
  else if c = 't' then ('\t', [])
  else if c = 'b' then (Char.ofNat 8, [])
  else if c = 'f' then (Char.ofNat 12, [])
  else if c = 'v' then (Char.ofNat 11, [])
  else if c = '0' then (NUL, [])
  else if c = squote then (squote, [])
  else if c = dquote then (dquote, [])
  else if c = backslash then (backslash, [])
  else (c, [Diag.warnUnknownEscape])

/-- Pass 2 of parse_character: decode the parent characters between the
quotes, translating backslash escapes. -/
def charDecode : Bool → List Char → List Char × List Diag
  | _, [] => ([], [])
  | esc, c :: rest =>
    if esc then
      let e := escChar c
      let r := charDecode false rest
      (e.1 :: r.1, e.2 ++ r.2)
    else if c = backslash then charDecode true rest
    else
      let r := charDecode false rest
      (c :: r.1, r.2)

/-- parse_character from literal.c: quote dispatch, parent-pointer
resolution, cursor-side scan for the terminating quote (consumed length),
then the parent-side two-pass decode (owned buffer content). String
allocation is modelled as always succeeding. -/
def parse_character (env : Env) (ptr : List Char) :
    Option (Nat × List Char) × List Diag :=
  let q := getc ptr 0
  if q ≠ dquote ∧ q ≠ squote then (none, [])
  else
    match env.parent 0 with
    | none => (none, [])
    | some pptr =>
      let sc := charScanCursor q false (ptr.drop 2)
      if getc ptr (2 + sc) ≠ q then (none, [Diag.errUnterminated])
      else
        match charLenScan q false (pptr.drop 1) with
        | LenScan.eol => (none, [Diag.errEndOfLine])
        | LenScan.offEnd => (none, [])
        | LenScan.ok _ jAdv =>
          let dec := charDecode false ((pptr.drop 1).take jAdv)
          (some (2 + sc + 1, dec.1), dec.2)

/-- parse_literal__character from literal.c. -/
def parse_literal__character (env : Env) (ptr : List Char)
    (lit : ParseLiteral) : Nat × ParseLiteral × List Diag :=
  let r := parse_character env ptr
  match r.1 with
  | none => (0, lit, r.2)
  | some (len, s) =>
    (len, { lit with type := LitType.character, string := s }, r.2)

/-- Case-insensitive keyword prefix match. -/
def matchCI : List Char → List Char → Bool
  | [], _ => true
  | _ :: _, [] => false
  | k :: ks, c :: cs => (cToUpper c = cToUpper k) && matchCI ks cs

/-- Modelled from the spec: parse_keyword, the shared keyword matcher of
the surrounding grammar (declared in parse.h, not part of this
repository's sources): a case-insensitive match of the keyword at the
cursor, returning the keyword's length, or 0 on mismatch. -/
def parse_keyword (ptr kw : List Char) : Nat :=
  if matchCI kw ptr then kw.length else 0

/-- The keyword TRUE. -/
def kwTRUE : List Char := ['T', 'R', 'U', 'E']

/-- The keyword FALSE. -/
def kwFALSE : List Char := ['F', 'A', 'L', 'S', 'E']

/-- parse_literal__logical from literal.c: `.` keyword `.`. -/
def parse_literal__logical (_env : Env) (ptr : List Char)
    (lit : ParseLiteral) : Nat × ParseLiteral × List Diag :=
  if getc ptr 0 ≠ '.' then (0, lit, [])
  else
    let lenT := parse_keyword (ptr.drop 1) kwTRUE
    let v := 0 < lenT
    let len := if lenT = 0 then parse_keyword (ptr.drop 1) kwFALSE else lenT
    if len = 0 then (0, lit, [])
    else
      let i := 1 + len
      if getc ptr i ≠ '.' then (0, lit, [])
      else (i + 1, { lit with type := LitType.logical, logical := v }, [])

/-- Length of the leading run of decimal digits, the `for (; isdigit...)`
loops of parse_literal__number. -/
def skipDigits : List Char → Nat
  | [] => 0
  | c :: rest => if isdigitC c then skipDigits rest + 1 else 0

/-- The common tail of parse_literal__number: whitespace-contiguity check,
kind-ambiguity warning, and construction of the result at consumed length
`iF` with resolved kind `k`. -/
def number_finish (env : Env) (ptr : List Char) (lit : ParseLiteral)
    (iF k : Nat) (amb : Bool) (ds : List Diag) :
    Nat × ParseLiteral × List Diag :=
  let ds2 := ds ++ (if env.seq 0 iF then [] else [Diag.warnWhitespaceNum])
  let ds3 := ds2 ++ (if amb then [Diag.warnKindAmbiguous] else [])
  (iF, { lit with type := LitType.number, kind := k, number := ptr.take iF },
    ds3)

/-- parse_literal__number from literal.c, translated with its exponent
check exactly as written: after seeing an exponent letter at index `i2`
and an optional sign at `j0`, the source tests `!isdigit(ptr[i])` — the
exponent letter position itself — not `ptr[j]`. -/
def parse_literal__number (env : Env) (ptr : List Char)
    (lit : ParseLiteral) : Nat × ParseLiteral × List Diag :=
  let i0 : Nat := if getc ptr 0 = '-' ∨ getc ptr 0 = '+' then 1 else 0
  let had_int := isdigitC (getc ptr i0)
  let i1 := i0 + skipDigits (ptr.drop i0)
  let fr : Bool × Nat :=
    if getc ptr i1 = '.' then
      ((had_int || isdigitC (getc ptr (i1 + 1))),
        (i1 + 1) + skipDigits (ptr.drop (i1 + 1)))
    else (false, i1)
  let had_fract := fr.1
  let i2 := fr.2
  let had_exponent :=
    cToUpper (getc ptr i2) = 'E' ∨ cToUpper (getc ptr i2) = 'D'
  let ek : Nat × Nat :=
    if had_exponent then
      let j0 := i2 + 1
      let j1 := if getc ptr j0 = '-' ∨ getc ptr j0 = '+' then j0 + 1 else j0
      if ¬ isdigitC (getc ptr i2) then (0, i2)
      else
        ((if getc ptr i2 = 'D' then 8 else 0), j1 + skipDigits (ptr.drop j1))
    else (0, i2)
  let k0 := ek.1
  let i3 := ek.2
  if ¬ had_fract ∧ ¬ had_int then (0, lit, [])
  else if getc ptr i3 = '_' then
    let r := parse_unsigned (env.shift (i3 + 1)) (ptr.drop (i3 + 1))
    match r.1 with
    | none => (0, lit, r.2)
    | some (len, kv) =>
      number_finish env ptr lit (i3 + 1 + len) kv
        (decide (0 < k0 ∧ kv ≠ k0)) r.2
  else number_finish env ptr lit i3 k0 false []

/-- parse_literal__complex from literal.c: `(` number `,` number `)`, the
two sub-results' slices kept, their kinds discarded. Every structural
failure returns 0 with the caller's literal untouched. -/
def parse_literal__complex (env : Env) (ptr : List Char)
    (lit : ParseLiteral) : Nat × ParseLiteral × List Diag :=
  if getc ptr 0 ≠ '(' then (0, lit, [])
  else
    let r1 := parse_literal__number (env.shift 1) (ptr.drop 1) litUndef
    if r1.1 = 0 then (0, lit, r1.2.2)
    else
      let i1 := 1 + r1.1
      if getc ptr i1 ≠ ',' then (0, lit, r1.2.2)
      else
        let r2 :=
          parse_literal__number (env.shift (i1 + 1)) (ptr.drop (i1 + 1))
            litUndef
        if r2.1 = 0 then (0, lit, r1.2.2 ++ r2.2.2)
        else
          let i2 := i1 + 1 + r2.1
          if getc ptr i2 ≠ ')' then (0, lit, r1.2.2 ++ r2.2.2)
          else
            (i2 + 1,
              { lit with type := LitType.complex,
                         left_number := r1.2.1.number,
                         right_number := r2.2.1.number },
              r1.2.2 ++ r2.2.2)

/-- The `if (len == 0) len = next(...)` fallthrough step of the
dispatcher, accumulating diagnostics of attempted recognizers. -/
def tryNext (r : Nat × ParseLiteral × List Diag)
    (f : ParseLiteral → Nat × ParseLiteral × List Diag) :
    Nat × ParseLiteral × List Diag :=
  if r.1 = 0 then
    let s := f r.2.1
    (s.1, s.2.1, r.2.2 ++ s.2.2)
  else r

/-- The dispatch chain of parse_literal over the local `l`. -/
def parse_literal_core (env : Env) (ptr : List Char) :
    Nat × ParseLiteral × List Diag :=
  tryNext (tryNext (tryNext (tryNext (tryNext (tryNext (tryNext (tryNext
    (0, litUndef, [])
    (parse_literal__character env ptr))
    (parse_literal__hollerith env ptr))
    (parse_literal__complex env ptr))
    (parse_literal__binary env ptr))
    (parse_literal__octal env ptr))
    (parse_literal__hex env ptr))
    (parse_literal__logical env ptr))
    (parse_literal__number env ptr)

/-- parse_literal from literal.c: try each sub-recognizer in order on the
local `l`; only on success is `*literal = l` performed — on failure the
caller's literal is returned unchanged. -/
def parse_literal (env : Env) (ptr : List Char) (literal : ParseLiteral) :
    Nat × ParseLiteral × List Diag :=
  let r := parse_literal_core env ptr
  if r.1 = 0 then (0, literal, r.2.2) else (r.1, r.2.1, r.2.2)

/-- The standard value of a digit string in a radix, used to state the
numeric claims (specification-side valuation, not part of the source). -/
def baseVal (base : Nat) (s : List Char) : Nat :=
  s.foldl (fun a c => a * base + digitVal c) 0

/-- A trivial oracle environment: all offsets contiguous, no parent text. -/
def envT : Env := ⟨fun _ _ => true, fun _ => none⟩

/-- The source text of the character literal quote a backslash n b quote. -/
def charLit : List Char := [squote, 'a', backslash, 'n', 'b', squote]

/-- Environment for the character-literal test: the parent text at the
opening quote is the same character sequence as the cursor text. -/
def envC4 : Env :=
  ⟨fun _ _ => true, fun i => if i = 0 then some charLit else none⟩

/-- The Hollerith test input 5Hab, with the buffer ending after the b. -/
def hollPtr : List Char := ['5', 'H', 'a', 'b']

/-- Environment for the Hollerith test: the parent text at the position of
the H reads Hab followed by a line terminator. -/
def envC7 : Env :=
  ⟨fun _ _ => true,
   fun i => if i = 1 then some ['H', 'a', 'b', '\n'] else none⟩

/-- Environment for the one-character string test: parent text is the
three-character literal quote a quote. -/
def envC10 : Env :=
  ⟨fun _ _ => true,
   fun i => if i = 0 then some [squote, 'a', squote] else none⟩

/-- Twenty decimal nines: value 10^20 - 1, above the 64-bit range. -/
def nines20 : List Char := List.replicate 20 '9'

/-- Sixty-five binary ones: value 2^65 - 1, above the 64-bit range. -/
def ones65 : List Char := List.replicate 65 '1'

/-- Reading index 0 of a cons cell. -/
theorem getc_cons_zero (c : Char) (rest : List Char) : getc (c :: rest) 0 = c := rfl

/-- Reading a successor index of a cons cell. -/
theorem getc_cons_succ (c : Char) (rest : List Char) (i : Nat) :
    getc (c :: rest) (i + 1) = getc rest i := rfl

/-- Reading the position right after a prefix returns the next character. -/
theorem getc_append_len (s : List Char) (c : Char) (rest : List Char) :
    getc (s ++ c :: rest) s.length = c := by
  induction s with
  | nil => rfl
  | cons a t ih => simpa [getc] using ih

/-- The digit scan stops exactly at the first invalid character. -/
theorem scanDigits_eq_len (base : Nat) (s rest : List Char) (c : Char)
    (hs : ∀ x ∈ s, is_base_digit x base = true)
    (hc : is_base_digit c base = false) :
    scanDigits base (s ++ c :: rest) = s.length := by
  induction s with
  | nil => simp [scanDigits, hc]
  | cons a t ih =>
    have ha : is_base_digit a base = true := hs a (by simp)
    simp [scanDigits, ha, ih (fun x hx => hs x (by simp [hx]))]

/-- Taking one past a prefix keeps the prefix plus the next character. -/
theorem take_append_len_succ (s : List Char) (c : Char) (rest : List Char) :
    (s ++ c :: rest).take (s.length + 1) = s ++ [c] := by
  induction s with
  | nil => simp
  | cons a t ih => simp [ih]

/-- Quote characters are not alphanumeric, hence not digits of any radix. -/
theorem is_base_digit_quote (q : Char) (base : Nat)
    (hq : q = dquote ∨ q = squote) : is_base_digit q base = false := by
  rcases hq with rfl | rfl
  · rw [is_base_digit, show isAlnum dquote = false from by decide]
    exact Bool.false_and _
  · rw [is_base_digit, show isAlnum squote = false from by decide]
    exact Bool.false_and _

/-- Reading index 1 of a two-cons cell. -/
theorem getc_cons_one (a b : Char) (l : List Char) :
    getc (a :: b :: l) 1 = b := rfl

/-- Reading a left-associated successor index of a cons cell. -/
theorem getc_cons_one_add (a : Char) (l : List Char) (i : Nat) :
    getc (a :: l) (1 + i) = getc l i := by
  rw [Nat.add_comm]
  rfl

/-- Quoted-mode success of the base-digit engine with no value
accumulation: a valid nonempty digit run between matching quotes consumes
the digits plus both quotes and emits nothing. -/
theorem base_quoted_ok (env : Env) (base : Nat) (q c : Char)
    (s rest : List Char) (hq : q = dquote ∨ q = squote)
    (hc : is_base_digit c base = true)
    (hs : ∀ x ∈ s, is_base_digit x base = true) :
    parse_literal__base env (q :: c :: s ++ q :: rest) base true false
      = (some (s.length + 3, 0), []) := by
  have hqd : ¬(q ≠ dquote ∧ q ≠ squote) := by
    rcases hq with rfl | rfl <;> simp
  have hcs : ∀ x ∈ c :: s, is_base_digit x base = true := by
    intro x hx
    simp only [List.mem_cons] at hx
    rcases hx with rfl | hx
    · exact hc
    · exact hs x hx
  have hscan : scanDigits base (c :: (s ++ q :: rest)) = s.length + 1 := by
    simpa using
      scanDigits_eq_len base (c :: s) rest q hcs (is_base_digit_quote q base hq)
  have hclose : getc (c :: (s ++ q :: rest)) (s.length + 1) = q := by
    simpa using getc_append_len (c :: s) q rest
  show parse_literal__base env (q :: c :: (s ++ q :: rest)) base true false = _
  simp only [parse_literal__base, if_true, getc_cons_zero, if_neg hqd,
    getc_cons_one, hc, List.drop_one, List.tail_cons, hscan,
    Bool.false_eq_true, if_false, getc_cons_one_add, hclose, if_pos rfl]

/-- Taking the quote, digits, and closing quote from the post-prefix text. -/
theorem take_quoted (q c : Char) (s rest : List Char) :
    List.take (s.length + 3) (q :: c :: (s ++ q :: rest))
      = q :: c :: (s ++ [q]) := by
  show List.take (s.length + 1 + 1 + 1) (q :: c :: (s ++ q :: rest)) = _
  rw [List.take_succ_cons, List.take_succ_cons, take_append_len_succ]

/-- Success shape of parse_literal__binary on a well-formed binary
literal: consumed length is digits + 3, and the stored slice starts at the
opening quote and includes both quotes. -/
theorem binary_ok (env : Env) (q c : Char) (s rest : List Char)
    (lit : ParseLiteral) (hq : q = dquote ∨ q = squote)
    (hc : is_base_digit c 2 = true)
    (hs : ∀ x ∈ s, is_base_digit x 2 = true) :
    parse_literal__binary env ('B' :: q :: c :: s ++ q :: rest) lit
      = (s.length + 4,
         { lit with type := LitType.binary, number := q :: c :: (s ++ [q]) },
         []) := by
  have hb := base_quoted_ok (env.shift 1) 2 q c s rest hq hc hs
  simp only [List.cons_append] at hb ⊢
  simp only [parse_literal__binary, getc_cons_zero,
    show cToUpper 'B' = 'B' from by decide, ne_eq, not_true_eq_false,
    if_false, List.drop_one, List.tail_cons, hb, take_quoted]

/-- Success shape of parse_literal__octal on a well-formed octal literal. -/
theorem octal_ok (env : Env) (q c : Char) (s rest : List Char)
    (lit : ParseLiteral) (hq : q = dquote ∨ q = squote)
    (hc : is_base_digit c 8 = true)
    (hs : ∀ x ∈ s, is_base_digit x 8 = true) :
    parse_literal__octal env ('O' :: q :: c :: s ++ q :: rest) lit
      = (s.length + 4,
         { lit with type := LitType.octal, number := q :: c :: (s ++ [q]) },
         []) := by
  have hb := base_quoted_ok (env.shift 1) 8 q c s rest hq hc hs
  simp only [List.cons_append] at hb ⊢
  simp only [parse_literal__octal, getc_cons_zero,
    show cToUpper 'O' = 'O' from by decide, ne_eq, not_true_eq_false,
    if_false, List.drop_one, List.tail_cons, hb, take_quoted]

/-- Success shape of parse_literal__hex on a well-formed hex literal with
the X prefix. -/
theorem hex_ok (env : Env) (q c : Char) (s rest : List Char)
    (lit : ParseLiteral) (hq : q = dquote ∨ q = squote)
    (hc : is_base_digit c 16 = true)
    (hs : ∀ x ∈ s, is_base_digit x 16 = true) :
    parse_literal__hex env ('X' :: q :: c :: s ++ q :: rest) lit
      = (s.length + 4,
         { lit with type := LitType.hex, number := q :: c :: (s ++ [q]) },
         []) := by
  have hb := base_quoted_ok (env.shift 1) 16 q c s rest hq hc hs
  simp only [List.cons_append] at hb ⊢
  simp only [parse_literal__hex, getc_cons_zero,
    show cToUpper 'X' = 'X' from by decide, ne_eq, not_true_eq_false,
    false_and, if_false, List.drop_one, List.tail_cons, hb, take_quoted]

/-- A base-10 digit has digit value below 10. -/
theorem digitVal_lt_ten (c : Char) (h : is_base_digit c 10 = true) :
    digitVal c < 10 := by
  simp only [is_base_digit, Bool.and_eq_true, decide_eq_true_eq] at h
  exact h.2

/-- Decimal accumulation never decreases the running value. -/
theorem foldl_dec_ge (v : Nat) (ds : List Char) :
    v ≤ ds.foldl (fun a c => a * 10 + digitVal c) v := by
  induction ds generalizing v with
  | nil => simp
  | cons c t ih =>
    have h1 : v ≤ v * 10 + digitVal c := by omega
    exact le_trans h1 (by simpa using ih (v * 10 + digitVal c))

/-- When the decimal value of the scanned digit run exceeds the 64-bit
range, the accumulation loop of the base-digit engine aborts: the
truncated `nv` can no longer be divided back into the previous value and
digit. -/
theorem accumDigits10_none (ptr : List Char) (v : Nat) (hv : v < 2 ^ 64)
    (h : 2 ^ 64 ≤ (ptr.take (scanDigits 10 ptr)).foldl
        (fun a c => a * 10 + digitVal c) v) :
    accumDigits 10 v ptr = none := by
  have e64 : (2 : Nat) ^ 64 = 18446744073709551616 := by norm_num
  induction ptr generalizing v with
  | nil =>
    simp only [scanDigits, List.take_nil, List.foldl_nil] at h
    omega
  | cons c t ih =>
    by_cases hd : is_base_digit c 10 = true
    · have hd10 : digitVal c < 10 := digitVal_lt_ten c hd
      rw [scanDigits, if_pos hd, List.take_succ_cons, List.foldl_cons] at h
      by_cases h0 : v * 10 + digitVal c < 2 ^ 64
      · have hnv : (v * 10 + digitVal c) % 2 ^ 64 = v * 10 + digitVal c :=
          Nat.mod_eq_of_lt h0
        have hdiv : (v * 10 + digitVal c) / 10 = v ∧
            (v * 10 + digitVal c) % 10 = digitVal c := by
          constructor <;> omega
        simp only [accumDigits, hd, if_true, hnv]
        rw [if_pos hdiv]
        exact ih (v * 10 + digitVal c) h0 h
      · simp only [accumDigits, hd, if_true]
        rw [if_neg]
        intro hcon
        obtain ⟨h1, h2⟩ := hcon
        rw [e64] at h0 h1 h2
        omega
    · rw [scanDigits, if_neg hd, List.take_zero, List.foldl_nil] at h
      omega

/-- parse_unsigned rejects with the overflow warning whenever the decimal
value of the leading digit run exceeds the 64-bit range. -/
theorem parse_unsigned_overflow (env : Env) (ptr : List Char)
    (h : 2 ^ 64 ≤ baseVal 10 (ptr.take (scanDigits 10 ptr))) :
    parse_unsigned env ptr = (none, [Diag.warnOverflow64]) := by
  cases ptr with
  | nil => simp [scanDigits, baseVal] at h
  | cons c t =>
    by_cases hd : is_base_digit c 10 = true
    · have hacc : accumDigits 10 0 (c :: t) = none := by
        apply accumDigits10_none _ 0 (by positivity)
        simpa [baseVal] using h
      simp [parse_unsigned, parse_literal__base, getc_cons_zero, hd, hacc]
    · simp [scanDigits, hd, baseVal] at h

/-- C1: the claim states that when digits follow an exponent letter (and
optional sign), the exponent is included in the consumed length and
matched slice. In the source the inner check tests `isdigit(ptr[i])` at
the exponent-letter position itself — never a digit — instead of `ptr[j]`
after the sign, so the exponent branch is unreachable and for 1.0E5 the
match ends before the E: consumed length 3, slice 1.0. -/
theorem c1_exponent_not_consumed :
    parse_literal__number envT ("1.0E5".toList) litUndef
      = (3, { litUndef with type := LitType.number, number := "1.0".toList },
         []) := by
  decide

/-- C2: the claim expects 1.0D0_4 to match fully with a kind-ambiguity
warning and stored kind 4. Because the exponent branch is unreachable
(see the C1 defect), the code stops after 1.0: the D is never consumed,
the kind suffix is never reached, the stored kind is 0, and no diagnostic
is emitted. -/
theorem c2_kind_suffix_not_reached :
    parse_literal__number envT ("1.0D0_4".toList) litUndef
      = (3, { litUndef with type := LitType.number, number := "1.0".toList },
         []) := by
  decide

/-- C3 counterexample: for the binary literal B quote 01 quote the claim
says the stored slice is exactly the digit text 01; the recognizer
consumes 5 characters as claimed but stores the slice beginning at the
opening quote, so the slice is not the bare digit text. -/
theorem c3_slice_includes_quotes :
    (parse_literal__binary envT ('B' :: squote :: '0' :: '1' :: squote :: [])
        litUndef).1 = 5 ∧
    ¬ (parse_literal__binary envT ('B' :: squote :: '0' :: '1' :: squote :: [])
        litUndef).2.1.number = ['0', '1'] := by
  decide

/-- C3 amended: for every radix in {2, 8, 16} and nonempty valid digit
run, the radix recognizer on prefix letter, quote, digits, matching quote
succeeds, consumes len(digits) + 3 characters, and stores as the borrowed
slice the text from the opening quote through the closing quote — the
prefix letter is excluded but both quotes are included. -/
theorem c3_radix_recognizers (env : Env) (q c : Char) (s rest : List Char)
    (lit : ParseLiteral) (hq : q = dquote ∨ q = squote) :
    (is_base_digit c 2 = true → (∀ x ∈ s, is_base_digit x 2 = true) →
      parse_literal__binary env ('B' :: q :: c :: s ++ q :: rest) lit
        = ((c :: s).length + 3,
           { lit with type := LitType.binary,
                      number := q :: c :: (s ++ [q]) }, [])) ∧
    (is_base_digit c 8 = true → (∀ x ∈ s, is_base_digit x 8 = true) →
      parse_literal__octal env ('O' :: q :: c :: s ++ q :: rest) lit
        = ((c :: s).length + 3,
           { lit with type := LitType.octal,
                      number := q :: c :: (s ++ [q]) }, [])) ∧
    (is_base_digit c 16 = true → (∀ x ∈ s, is_base_digit x 16 = true) →
      parse_literal__hex env ('X' :: q :: c :: s ++ q :: rest) lit
        = ((c :: s).length + 3,
           { lit with type := LitType.hex,
                      number := q :: c :: (s ++ [q]) }, [])) := by
  refine ⟨fun hc hs => ?_, fun hc hs => ?_, fun hc hs => ?_⟩
  · exact binary_ok env q c s rest lit hq hc hs
  · exact octal_ok env q c s rest lit hq hc hs
  · exact hex_ok env q c s rest lit hq hc hs

/-- C3 witness: the amended binary statement evaluated on digits 01
between single quotes. -/
theorem c3_radix_recognizers_witness :
    parse_literal__binary envT ('B' :: squote :: '0' :: '1' :: squote :: [])
        litUndef
      = (('0' :: ['1']).length + 3,
         { litUndef with type := LitType.binary,
                         number := squote :: '0' :: (['1'] ++ [squote]) },
         []) :=
  (c3_radix_recognizers envT squote '0' ['1'] [] litUndef (Or.inr rfl)).1
    (by decide) (by decide)

/-- C5 counterexample: a binary literal of sixty-five 1 digits — value
2^65 - 1, beyond the 64-bit range — is accepted by the binary recognizer
(nonzero consumed length), although the claim requires quoted radix digit
runs exceeding 64 bits to be rejected. -/
theorem c5_no_overflow_rejection :
    (parse_literal__binary envT ('B' :: squote :: (ones65 ++ [squote]))
        litUndef).1 ≠ 0 ∧
    2 ^ 64 - 1 < baseVal 2 ones65 := by
  decide

/-- C5 amended: all three radix recognizers (binary, octal, hex) pass a
null value pointer to the base-digit engine, so no accumulation and no
64-bit overflow check happen for quoted radix digit runs: a run of any
magnitude (here one exceeding the 64-bit range in the respective radix)
is accepted with no diagnostic. The overflow rejection exists only in
value-accumulating mode (parse_unsigned, radix 10). -/
theorem c5_radix_no_64bit_check (env : Env) (q c : Char)
    (s rest : List Char) (lit : ParseLiteral)
    (hq : q = dquote ∨ q = squote) :
    (is_base_digit c 2 = true → (∀ x ∈ s, is_base_digit x 2 = true) →
      2 ^ 64 ≤ baseVal 2 (c :: s) →
      (parse_literal__binary env ('B' :: q :: c :: s ++ q :: rest) lit).1
          = s.length + 4 ∧
      (parse_literal__binary env ('B' :: q :: c :: s ++ q :: rest) lit).2.2
          = []) ∧
    (is_base_digit c 8 = true → (∀ x ∈ s, is_base_digit x 8 = true) →
      2 ^ 64 ≤ baseVal 8 (c :: s) →
      (parse_literal__octal env ('O' :: q :: c :: s ++ q :: rest) lit).1
          = s.length + 4 ∧
      (parse_literal__octal env ('O' :: q :: c :: s ++ q :: rest) lit).2.2
          = []) ∧
    (is_base_digit c 16 = true → (∀ x ∈ s, is_base_digit x 16 = true) →
      2 ^ 64 ≤ baseVal 16 (c :: s) →
      (parse_literal__hex env ('X' :: q :: c :: s ++ q :: rest) lit).1
          = s.length + 4 ∧
      (parse_literal__hex env ('X' :: q :: c :: s ++ q :: rest) lit).2.2
          = []) := by
  refine ⟨fun hc hs _ => ?_, fun hc hs _ => ?_, fun hc hs _ => ?_⟩
  · rw [binary_ok env q c s rest lit hq hc hs]
    exact ⟨rfl, rfl⟩
  · rw [octal_ok env q c s rest lit hq hc hs]
    exact ⟨rfl, rfl⟩
  · rw [hex_ok env q c s rest lit hq hc hs]
    exact ⟨rfl, rfl⟩

/-- C5 witness: the amended statement evaluated on a sixty-five digit
binary run (value 2^65 - 1), a twenty-two digit octal run of sevens
(value 8^22 - 1 = 2^66 - 1), and a seventeen digit hex run of F digits
(value 16^17 - 1 = 2^68 - 1), each above the 64-bit range. -/
theorem c5_radix_no_64bit_check_witness :
    ((parse_literal__binary envT
        ('B' :: squote :: '1' :: List.replicate 64 '1' ++ squote :: [])
        litUndef).1 = (List.replicate 64 '1').length + 4 ∧
     (parse_literal__binary envT
        ('B' :: squote :: '1' :: List.replicate 64 '1' ++ squote :: [])
        litUndef).2.2 = []) ∧
    ((parse_literal__octal envT
        ('O' :: squote :: '7' :: List.replicate 21 '7' ++ squote :: [])
        litUndef).1 = (List.replicate 21 '7').length + 4 ∧
     (parse_literal__octal envT
        ('O' :: squote :: '7' :: List.replicate 21 '7' ++ squote :: [])
        litUndef).2.2 = []) ∧
    ((parse_literal__hex envT
        ('X' :: squote :: 'F' :: List.replicate 16 'F' ++ squote :: [])
        litUndef).1 = (List.replicate 16 'F').length + 4 ∧
     (parse_literal__hex envT
        ('X' :: squote :: 'F' :: List.replicate 16 'F' ++ squote :: [])
        litUndef).2.2 = []) :=
  ⟨(c5_radix_no_64bit_check envT squote '1' (List.replicate 64 '1') []
      litUndef (Or.inr rfl)).1 (by decide) (by decide) (by decide),
   (c5_radix_no_64bit_check envT squote '7' (List.replicate 21 '7') []
      litUndef (Or.inr rfl)).2.1 (by decide) (by decide) (by decide),
   (c5_radix_no_64bit_check envT squote 'F' (List.replicate 16 'F') []
      litUndef (Or.inr rfl)).2.2 (by decide) (by decide) (by decide)⟩

/-- C6: a base-10 digit run whose decimal value exceeds 2^64 - 1 always
makes parse_unsigned fail: the overflow warning is emitted and the failed
(0) return is produced — never a wrapped or truncated value. -/
theorem c6_overflow_hard_rejection (env : Env) (ptr : List Char)
    (h : 2 ^ 64 - 1 < baseVal 10 (ptr.take (scanDigits 10 ptr))) :
    (parse_unsigned env ptr).1 = none ∧
    Diag.warnOverflow64 ∈ (parse_unsigned env ptr).2 := by
  have hp : 0 < (2 : Nat) ^ 64 := by positivity
  have h64 : 2 ^ 64 ≤ baseVal 10 (ptr.take (scanDigits 10 ptr)) := by omega
  rw [parse_unsigned_overflow env ptr h64]
  exact ⟨rfl, by simp⟩

/-- C6 witness: twenty nines overflow and are rejected with the warning. -/
theorem c6_overflow_hard_rejection_witness :
    (parse_unsigned envT nines20).1 = none ∧
    Diag.warnOverflow64 ∈ (parse_unsigned envT nines20).2 :=
  c6_overflow_hard_rejection envT nines20 (by decide)

/-- The Hollerith copy loop collects at most the requested count. -/
theorem hollCopy_len (ptr pptr : List Char) (i j n : Nat) :
    (hollCopy ptr pptr i j n).1.length ≤ n := by
  induction n generalizing i j with
  | zero => simp [hollCopy]
  | succ n ih =>
    simp only [hollCopy]
    split
    · simp
    · simpa using Nat.succ_le_succ (ih _ _)

/-- C7: the Hollerith literal 5Hab whose parent text reaches a line
terminator after only two of the five requested characters succeeds with
an owned five-byte buffer of ab followed by three spaces; in general,
every successful parse_hollerith returns a buffer whose length equals the
count parsed by parse_unsigned — truncated content is space-padded, never
rejected. -/
theorem c7_hollerith_padding :
    parse_hollerith envC7 hollPtr = (some (4, ['a', 'b', ' ', ' ', ' ']), [])
    ∧ ∀ env ptr r s, (parse_hollerith env ptr).1 = some (r, s) →
        ∃ k v, (parse_unsigned env ptr).1 = some (k, v) ∧ s.length = v := by
  constructor
  · decide
  · intro env ptr r s h
    cases hu : (parse_unsigned env ptr).1 with
    | none => simp [parse_hollerith, hu] at h
    | some p =>
      obtain ⟨i0, holl⟩ := p
      refine ⟨i0, holl, rfl, ?_⟩
      by_cases hH : cToUpper (getc ptr i0) = 'H'
      · cases hp : env.parent i0 with
        | none => simp [parse_hollerith, hu, hp, hH] at h
        | some pptr =>
          simp only [parse_hollerith, hu, hH, hp, ne_eq, not_true_eq_false,
            if_false, Option.some.injEq, Prod.mk.injEq] at h
          obtain ⟨h1, h2⟩ := h
          have hle := hollCopy_len ptr pptr (i0 + 1) 1 holl
          rw [← h2]
          simp only [List.length_append, List.length_replicate]
          omega
      · simp [parse_hollerith, hu, hH] at h

/-- C7 witness: the general padding statement applied to the 5Hab test. -/
theorem c7_hollerith_padding_witness :
    ∃ k v, (parse_unsigned envC7 hollPtr).1 = some (k, v) ∧
      (['a', 'b', ' ', ' ', ' '] : List Char).length = v :=
  c7_hollerith_padding.2 envC7 hollPtr 4 ['a', 'b', ' ', ' ', ' ']
    (by decide)

/-- C8: the complex recognizer on (1.0,2.0) succeeds with consumed length
9, real slice 1.0 and imaginary slice 2.0; a missing opening parenthesis
is a silent full non-match; and every failing run (return 0) leaves the
caller's literal completely untouched — no partial result. -/
theorem c8_complex_literal :
    (parse_literal__complex envT ("(1.0,2.0)".toList) litUndef
      = (9, { litUndef with type := LitType.complex,
                            left_number := "1.0".toList,
                            right_number := "2.0".toList },
         []))
    ∧ (∀ env ptr lit, getc ptr 0 ≠ '(' →
        parse_literal__complex env ptr lit = (0, lit, []))
    ∧ (∀ env ptr lit, (parse_literal__complex env ptr lit).1 = 0 →
        (parse_literal__complex env ptr lit).2.1 = lit) := by
  refine ⟨by decide, ?_, ?_⟩
  · intro env ptr lit h
    simp [parse_literal__complex, h]
  · intro env ptr lit h
    by_cases h0 : getc ptr 0 = '('
    · simp only [parse_literal__complex, h0, ne_eq, not_true_eq_false,
        if_false] at h ⊢
      split_ifs at h ⊢ <;> try rfl
      all_goals simp_all
    · simp [parse_literal__complex, h0]

/-- C8 witness: the frame statement applied to the structurally mismatched
input missing its comma and closing parenthesis. -/
theorem c8_complex_literal_witness :
    (parse_literal__complex envT ("(1.0".toList) litUndef).2.1 = litUndef :=
  c8_complex_literal.2.2 envT ("(1.0".toList) litUndef (by decide)

/-- C9: when parse_literal fails — every sub-recognizer returned 0 — the
value 0 is returned and the caller's output literal is exactly the value
passed in: no field is mutated on failure. -/
theorem c9_dispatcher_frame (env : Env) (ptr : List Char)
    (lit : ParseLiteral) (h : (parse_literal env ptr lit).1 = 0) :
    (parse_literal env ptr lit).2.1 = lit := by
  by_cases hc : (parse_literal_core env ptr).1 = 0
  · simp [parse_literal, hc]
  · simp [parse_literal, hc] at h

/-- C9 witness: the frame statement applied to an input that no
sub-recognizer accepts. -/
theorem c9_dispatcher_frame_witness :
    (parse_literal envT ['@'] litUndef).2.1 = litUndef :=
  c9_dispatcher_frame envT ['@'] litUndef (by decide)

/-- C10: every successful parse_character consumes at least 3 characters,
because the cursor-side terminating-quote scan begins two characters past
the opening quote; in particular an empty literal of two adjacent quotes
is never recognized with consumed length 2. -/
theorem c10_character_min_length (env : Env) (ptr : List Char) (n : Nat)
    (s : List Char) (h : (parse_character env ptr).1 = some (n, s)) :
    3 ≤ n := by
  by_cases hq : getc ptr 0 ≠ dquote ∧ getc ptr 0 ≠ squote
  · simp [parse_character, hq] at h
  · cases hp : env.parent 0 with
    | none => simp [parse_character, hq, hp] at h
    | some pptr =>
      by_cases ht : getc ptr (2 + charScanCursor (getc ptr 0) false
          (ptr.drop 2)) = getc ptr 0
      · cases hl : charLenScan (getc ptr 0) false pptr.tail with
        | eol => simp [parse_character, hq, hp, ht, hl] at h
        | offEnd => simp [parse_character, hq, hp, ht, hl] at h
        | ok l j =>
          simp [parse_character, hq, hp, ht, hl] at h
          omega
      · simp [parse_character, hq, hp, ht] at h

/-- C10 witness: the one-character literal quote a quote is recognized and
its consumed length 3 meets the bound. -/
theorem c10_character_min_length_witness :
    (parse_character envC10 [squote, 'a', squote]).1 = some (3, ['a']) ∧
    3 ≤ 3 :=
  ⟨by decide,
   c10_character_min_length envC10 [squote, 'a', squote] 3 ['a'] (by decide)⟩

/-- C4 counterexample: decoding the character literal whose source text is
quote a backslash n b quote yields the three bytes a, newline, b — but the
consumed length is 6, the number of source characters, not the 8 the claim
states. -/
theorem c4_consumed_length_not_eight :
    (parse_character envC4 charLit).1 = some (6, ['a', '\n', 'b']) ∧
    ¬ (parse_character envC4 charLit).1 = some (8, ['a', '\n', 'b']) := by
  decide

/-- C4 amended: the recognizer consumes exactly the 6 source characters
(two quotes plus four content characters, the backslash-n pair decoding to
one newline byte), yields the owned 3-byte buffer a newline b, and emits
no diagnostic. -/
theorem c4_character_decode :
    parse_character envC4 charLit = (some (6, ['a', '\n', 'b']), []) := by
  decide
